import Mathlib

/-!
Verification development for the educational proof-of-work cryptocurrency node
(Go sources: blockchain.go, transaction.go, main.go, and the Merkle-tree module).

Shallow embedding conventions:
* Go `float64` amounts are modelled as exact rationals (`Rat`).  Every property
  settled here involves only additions, subtractions and comparisons of small
  decimal amounts, which are exact in both representations.
* Go maps (`map[string][]*UTXO`) are modelled as association lists in insertion
  order: lookup returns the first matching key, assignment replaces the entry in
  place or appends a fresh key, delete removes the entry.  No settled property
  depends on Go's randomized map-iteration order.
* Go's `fmt.Printf` logging is dropped.  Concrete inputs used in theorems keep
  every sliced string (`s[:8]`) at least 8 bytes long so that the dropped log
  statements could not panic on them in Go.
* A Go runtime panic (index out of range) is modelled explicitly by a
  `panicked` result constructor.
* The wall clock is passed to block constructors as an explicit `now : String`
  argument; a function that ignores it provably does not read the clock.
* The Ethereum-style account model, the database adapter and the HTTP layer are
  out of scope (the spec declares them external collaborators); `DB` is nil in
  the modelled constructor paths.
-/

/-- Byte strings are lists of byte values (each < 256 for meaningful inputs). -/
abbrev Bytes := List Nat

/-- Decidable string prefix test used to embed Go `strings.HasPrefix`
(character-list recursion, avoiding `String.startsWith` internals). -/
def charsStartWith : List Char → List Char → Bool
  | _, [] => true
  | [], _ :: _ => false
  | c :: cs, p :: ps => c == p && charsStartWith cs ps

/-- Embedding of Go `strings.HasPrefix s pre`. -/
def goStartsWith (s pre : String) : Bool :=
  charsStartWith s.data pre.data

/-- Go `const DIFFICULTY = 4` (main.go). -/
def DIFFICULTY : Nat := 4

/-- `strings.Repeat("0", DIFFICULTY)`: the proof-of-work target run of zeros. -/
def powZeros : String := String.mk (List.replicate DIFFICULTY '0')

/-- `strings.Repeat("0", 64)`: the genesis previous-hash. -/
def zeros64 : String := String.mk (List.replicate 64 '0')

/-- Go `const MiningReward = 10.0` (transaction.go). -/
def MiningReward : Rat := 10

/-! ## SHA-256 (crypto/sha256), on byte lists, 32-bit words as `Nat` mod 2^32 -/

def w32 (n : Nat) : Nat := n % 4294967296

def add32 (a b : Nat) : Nat := (a + b) % 4294967296

def rotr32 (x n : Nat) : Nat := w32 ((x >>> n) ||| (x <<< (32 - n)))

def shaCh (x y z : Nat) : Nat := (x &&& y) ^^^ ((4294967295 ^^^ x) &&& z)

def shaMaj (x y z : Nat) : Nat := (x &&& y) ^^^ (x &&& z) ^^^ (y &&& z)

def bigSigma0 (x : Nat) : Nat := rotr32 x 2 ^^^ rotr32 x 13 ^^^ rotr32 x 22

def bigSigma1 (x : Nat) : Nat := rotr32 x 6 ^^^ rotr32 x 11 ^^^ rotr32 x 25

def smallSigma0 (x : Nat) : Nat := rotr32 x 7 ^^^ rotr32 x 18 ^^^ (x >>> 3)

def smallSigma1 (x : Nat) : Nat := rotr32 x 17 ^^^ rotr32 x 19 ^^^ (x >>> 10)

/-- The 64 SHA-256 round constants. -/
def shaK : List Nat :=
  [1116352408, 1899447441, 3049323471, 3921009573, 961987163,
   1508970993, 2453635748, 2870763221, 3624381080, 310598401,
   607225278, 1426881987, 1925078388, 2162078206, 2614888103,
   3248222580, 3835390401, 4022224774, 264347078, 604807628,
   770255983, 1249150122, 1555081692, 1996064986, 2554220882,
   2821834349, 2952996808, 3210313671, 3336571891, 3584528711,
   113926993, 338241895, 666307205, 773529912, 1294757372,
   1396182291, 1695183700, 1986661051, 2177026350, 2456956037,
   2730485921, 2820302411, 3259730800, 3345764771, 3516065817,
   3600352804, 4094571909, 275423344, 430227734, 506948616,
   659060556, 883997877, 958139571, 1322822218, 1537002063,
   1747873779, 1955562222, 2024104815, 2227730452, 2361852424,
   2428436474, 2756734187, 3204031479, 3329325298]

/-- SHA-256 working state (eight 32-bit words). -/
structure SHAState where
  sa : Nat
  sb : Nat
  sc : Nat
  sd : Nat
  se : Nat
  sf : Nat
  sg : Nat
  sh : Nat
deriving DecidableEq

/-- SHA-256 initial hash value. -/
def shaInit : SHAState :=
  ⟨1779033703, 3144134277, 1013904242, 2773480762,
   1359893119, 2600822924, 528734635, 1541459225⟩

/-- One SHA-256 compression round; `kw` is the pair (round constant, schedule word). -/
def shaRound (st : SHAState) (kw : Nat × Nat) : SHAState :=
  let t1 := add32 st.sh (add32 (bigSigma1 st.se) (add32 (shaCh st.se st.sf st.sg) (add32 kw.1 kw.2)))
  let t2 := add32 (bigSigma0 st.sa) (shaMaj st.sa st.sb st.sc)
  ⟨add32 t1 t2, st.sa, st.sb, st.sc, add32 st.sd t1, st.se, st.sf, st.sg⟩

/-- Append the next message-schedule word. -/
def scheduleStep (w : List Nat) : List Nat :=
  let n := w.length
  w ++ [add32 (add32 (smallSigma1 (w.getD (n - 2) 0)) (w.getD (n - 7) 0))
              (add32 (smallSigma0 (w.getD (n - 15) 0)) (w.getD (n - 16) 0))]

/-- Extend a 16-word block to the 64-word schedule (48 extension steps). -/
def buildSchedule : Nat → List Nat → List Nat
  | 0, w => w
  | k + 1, w => buildSchedule k (scheduleStep w)

/-- Compress one 16-word block into the state. -/
def compressBlock (st : SHAState) (block16 : List Nat) : SHAState :=
  let w := buildSchedule 48 block16
  let f := (shaK.zip w).foldl shaRound st
  ⟨add32 st.sa f.sa, add32 st.sb f.sb, add32 st.sc f.sc, add32 st.sd f.sd,
   add32 st.se f.se, add32 st.sf f.sf, add32 st.sg f.sg, add32 st.sh f.sh⟩

/-- `k` big-endian bytes of `n`. -/
def bytesBE : Nat → Nat → Bytes
  | 0, _ => []
  | k + 1, n => bytesBE k (n / 256) ++ [n % 256]

/-- SHA-256 message padding: 0x80, zeros to 56 mod 64, 64-bit bit length. -/
def shaPad (msg : Bytes) : Bytes :=
  let l := msg.length
  msg ++ [128] ++ List.replicate ((119 - l % 64) % 64) 0 ++ bytesBE 8 (8 * l)

/-- Group bytes into 32-bit big-endian words. -/
def wordsOfBytes : Bytes → List Nat
  | b1 :: b2 :: b3 :: b4 :: rest =>
      (b1 * 16777216 + b2 * 65536 + b3 * 256 + b4) :: wordsOfBytes rest
  | _ => []

/-- Split a byte list into 64-byte chunks (fuel-driven; fuel := length suffices). -/
def chunks64 : Nat → Bytes → List Bytes
  | 0, _ => []
  | f + 1, l => if l.length = 0 then [] else l.take 64 :: chunks64 f (l.drop 64)

/-- Serialize the final state to 32 digest bytes. -/
def digestBytes (st : SHAState) : Bytes :=
  bytesBE 4 st.sa ++ bytesBE 4 st.sb ++ bytesBE 4 st.sc ++ bytesBE 4 st.sd ++
  bytesBE 4 st.se ++ bytesBE 4 st.sf ++ bytesBE 4 st.sg ++ bytesBE 4 st.sh

/-- `sha256.Sum256` on a byte list. -/
def sha256Bytes (msg : Bytes) : Bytes :=
  let padded := shaPad msg
  digestBytes ((chunks64 padded.length padded).foldl
    (fun st c => compressBlock st (wordsOfBytes c)) shaInit)

/-- Lowercase hex digit. -/
def hexDigit (n : Nat) : Char :=
  if n < 10 then Char.ofNat (48 + n) else Char.ofNat (87 + n)

/-- Two hex characters of one byte. -/
def byteHexChars (b : Nat) : List Char := [hexDigit (b / 16), hexDigit (b % 16)]

/-- `hex.EncodeToString`. -/
def bytesToHexChars (l : Bytes) : List Char := (l.map byteHexChars).flatten

/-- UTF-8 encoding of one character (Go strings are UTF-8 byte sequences). -/
def utf8EncodeChar (c : Char) : Bytes :=
  let n := c.toNat
  if n < 128 then [n]
  else if n < 2048 then [192 + n / 64, 128 + n % 64]
  else if n < 65536 then [224 + n / 4096, 128 + (n / 64) % 64, 128 + n % 64]
  else [240 + n / 262144, 128 + (n / 4096) % 64, 128 + (n / 64) % 64, 128 + n % 64]

/-- UTF-8 bytes of a string. -/
def utf8Bytes (s : String) : Bytes := (s.data.map utf8EncodeChar).flatten

/-- Hex-encoded SHA-256 of a string, as in
`hex.EncodeToString(sha256.Sum(...))` over a serialized value. -/
def sha256Hex (s : String) : String := String.mk (bytesToHexChars (sha256Bytes (utf8Bytes s)))

/-! ## Ledger data model (transaction.go, main.go `Block`) -/

/-- `TxOutput` (transaction.go). `Value float64` is modelled as an exact rational. -/
structure TxOutput where
  Value : Rat
  Address : String
  ScriptPub : String
deriving DecidableEq

/-- `TxInput` (transaction.go).  Go nil byte slices are `none`. -/
structure TxInput where
  TxID : String
  OutIndex : Int
  Signature : Option Bytes
  PubKey : Option Bytes
deriving DecidableEq

/-- `Transaction` (transaction.go). -/
structure Transaction where
  ID : String
  Inputs : List TxInput
  Outputs : List TxOutput
deriving DecidableEq

/-- `UTXO` (transaction.go). -/
structure UTXO where
  TxID : String
  OutIndex : Int
  Output : TxOutput
deriving DecidableEq

/-- `Block` (main.go, the mined variant with a nonce). `Index`/`Nonce` are Go ints. -/
structure Block where
  Index : Int
  Timestamp : String
  Transactions : List Transaction
  PreviousHash : String
  Hash : String
  Nonce : Int
deriving DecidableEq

/-- `tx.IsCoinbase()`:
`len(tx.Inputs) == 1 && tx.Inputs[0].TxID == "" && tx.Inputs[0].OutIndex == -1`. -/
def Transaction.IsCoinbase (tx : Transaction) : Bool :=
  match tx.Inputs with
  | [i] => i.TxID == "" && i.OutIndex == -1
  | _ => false

/-! ## Canonical JSON serialization (encoding/json on the Go structs)

Key order follows Go struct declaration order and the `json:"..."` tags.
Byte slices marshal to base64 (nil to `null`); these serializers assume the
string repertoire actually used by the program (no JSON escaping needed).
Rationals print as shortest terminating decimals, matching Go's shortest
round-trip formatting for the decimal amounts the program uses.  No settled
claim compares these bytes against externally computed hashes. -/

/-- A literal left brace (JSON object opener). -/
def jLB : String := "\x7b"

/-- A literal right brace (JSON object closer). -/
def jRB : String := "\x7d"

def jsonStr (s : String) : String := "\"" ++ s ++ "\""

/-- Base64 character table (RFC 4648 standard alphabet). -/
def b64Char (n : Nat) : Char :=
  if n < 26 then Char.ofNat (65 + n)
  else if n < 52 then Char.ofNat (97 + (n - 26))
  else if n < 62 then Char.ofNat (48 + (n - 52))
  else if n = 62 then '+'
  else '/'

/-- Standard base64 with padding, as Go marshals `[]byte`. -/
def base64 : Bytes → String
  | [] => ""
  | [a] =>
      String.mk [b64Char (a / 4), b64Char ((a % 4) * 16)] ++ "=="
  | [a, b] =>
      String.mk [b64Char (a / 4), b64Char ((a % 4) * 16 + b / 16), b64Char ((b % 16) * 4)] ++ "="
  | a :: b :: c :: rest =>
      String.mk [b64Char (a / 4), b64Char ((a % 4) * 16 + b / 16),
                 b64Char ((b % 16) * 4 + c / 64), b64Char (c % 64)] ++ base64 rest

def jsonBytesOpt : Option Bytes → String
  | none => "null"
  | some l => jsonStr (base64 l)

/-- Decimal digits of the fractional part num/den (terminates within fuel). -/
def fracDigits : Nat → Nat → Nat → String
  | 0, _, _ => ""
  | _ + 1, 0, _ => ""
  | f + 1, n, d => toString (n * 10 / d) ++ fracDigits f (n * 10 % d) d

/-- Shortest-decimal rendering of a rational amount (Go float formatting stand-in). -/
def jsonRat (q : Rat) : String :=
  (if q < 0 then "-" else "") ++
  (let a := if q < 0 then -q else q
   let i := a.num.toNat / a.den
   let r := a.num.toNat % a.den
   toString i ++ (if r = 0 then "" else "." ++ fracDigits 64 r a.den))

def jsonArr (elems : List String) : String := "[" ++ String.intercalate "," elems ++ "]"

/-- `json.Marshal` of a `TxInput` (tags: txId, outIndex, signature, pubKey). -/
def jsonTxInput (i : TxInput) : String :=
  jLB ++ jsonStr "txId" ++ ":" ++ jsonStr i.TxID ++ "," ++
  jsonStr "outIndex" ++ ":" ++ toString i.OutIndex ++ "," ++
  jsonStr "signature" ++ ":" ++ jsonBytesOpt i.Signature ++ "," ++
  jsonStr "pubKey" ++ ":" ++ jsonBytesOpt i.PubKey ++ jRB

/-- `json.Marshal` of a `TxOutput` (tags: value, address, scriptPub). -/
def jsonTxOutput (o : TxOutput) : String :=
  jLB ++ jsonStr "value" ++ ":" ++ jsonRat o.Value ++ "," ++
  jsonStr "address" ++ ":" ++ jsonStr o.Address ++ "," ++
  jsonStr "scriptPub" ++ ":" ++ jsonStr o.ScriptPub ++ jRB

/-- `json.Marshal` of a `Transaction` (tags: id, inputs, outputs). -/
def jsonTransaction (t : Transaction) : String :=
  jLB ++ jsonStr "id" ++ ":" ++ jsonStr t.ID ++ "," ++
  jsonStr "inputs" ++ ":" ++ jsonArr (t.Inputs.map jsonTxInput) ++ "," ++
  jsonStr "outputs" ++ ":" ++ jsonArr (t.Outputs.map jsonTxOutput) ++ jRB

/-- `json.Marshal` of a `Block` (tags: index, timestamp, transactions,
previousHash, hash, nonce).  Note: the stored `hash` field IS part of the
marshalled bytes — the Go `Hash` function does not exclude it. -/
def jsonBlock (b : Block) : String :=
  jLB ++ jsonStr "index" ++ ":" ++ toString b.Index ++ "," ++
  jsonStr "timestamp" ++ ":" ++ jsonStr b.Timestamp ++ "," ++
  jsonStr "transactions" ++ ":" ++ jsonArr (b.Transactions.map jsonTransaction) ++ "," ++
  jsonStr "previousHash" ++ ":" ++ jsonStr b.PreviousHash ++ "," ++
  jsonStr "hash" ++ ":" ++ jsonStr b.Hash ++ "," ++
  jsonStr "nonce" ++ ":" ++ toString b.Nonce ++ jRB

/-- `Hash(block)` (blockchain.go): hex SHA-256 of `json.Marshal(block)`,
including the current value of the hash field itself. -/
def HashFn (b : Block) : String := sha256Hex (jsonBlock b)

/-- Modelled from the spec: the canonical serialization contract of §4.1 says
the preimage of a block hash is the canonical serialization of the block's
fields "with the hash field itself excluded".  No function of the source
computes this; it is stated here only to compare the code against the spec. -/
def jsonBlockNoHashField (b : Block) : String :=
  jLB ++ jsonStr "index" ++ ":" ++ toString b.Index ++ "," ++
  jsonStr "timestamp" ++ ":" ++ jsonStr b.Timestamp ++ "," ++
  jsonStr "transactions" ++ ":" ++ jsonArr (b.Transactions.map jsonTransaction) ++ "," ++
  jsonStr "previousHash" ++ ":" ++ jsonStr b.PreviousHash ++ "," ++
  jsonStr "nonce" ++ ":" ++ toString b.Nonce ++ jRB

/-- Modelled from the spec: hex SHA-256 of the canonical serialization with the
hash field excluded from the preimage (spec §4.1 and claim C3). -/
def specCanonicalBlockHash (b : Block) : String := sha256Hex (jsonBlockNoHashField b)

/-- `tx.SetID()`: marshal the transaction (its `ID` still holding its current
value, the zero value `""` at creation time) and store the hex SHA-256. -/
def Transaction.SetID (tx : Transaction) : Transaction :=
  { tx with ID := sha256Hex (jsonTransaction tx) }

/-! ## UTXO set (Go `map[string][]*UTXO`, as an insertion-ordered assoc list) -/

/-- The UTXO set: owner address to owned UTXOs. -/
abbrev UTXOSet := List (String × List UTXO)

/-- Map read `m[k]` (first matching key). -/
def utxoFind (s : UTXOSet) (addr : String) : Option (List UTXO) :=
  match s with
  | [] => none
  | (a, l) :: rest => if a = addr then some l else utxoFind rest addr

/-- Map write `m[k] = v`: replace in place, or append a fresh key. -/
def utxoAssign (s : UTXOSet) (addr : String) (l : List UTXO) : UTXOSet :=
  match s with
  | [] => [(addr, l)]
  | (a, l0) :: rest => if a = addr then (a, l) :: rest else (a, l0) :: utxoAssign rest addr l

/-- Map delete `delete(m, k)`. -/
def utxoErase (s : UTXOSet) (addr : String) : UTXOSet :=
  match s with
  | [] => []
  | (a, l) :: rest => if a = addr then rest else (a, l) :: utxoErase rest addr

/-- First `(owner, utxo)` whose UTXO matches `(txID, outIndex)`, scanning
addresses in map order and each address's list in order — the double loop of
`validateTransactions` / `applyUTXOChanges`. -/
def utxoLocate (s : UTXOSet) (txID : String) (outIndex : Int) : Option (String × UTXO) :=
  match s with
  | [] => none
  | (a, l) :: rest =>
      match l.find? (fun u => u.TxID == txID && u.OutIndex == outIndex) with
      | some u => some (a, u)
      | none => utxoLocate rest txID outIndex

/-- Remove the first element matching `(txID, outIndex)` from a list. -/
def removeFirstUTXO (l : List UTXO) (txID : String) (outIndex : Int) : List UTXO :=
  match l with
  | [] => []
  | u :: rest =>
      if u.TxID == txID && u.OutIndex == outIndex then rest
      else u :: removeFirstUTXO rest txID outIndex

/-- `b.removeUTXO(address, txID, outIndex)` (blockchain.go): no-op when the
address is absent; otherwise drop the first matching UTXO, and delete the
address key when its list has become (or already was) empty. -/
def removeUTXO (s : UTXOSet) (addr txID : String) (outIndex : Int) : UTXOSet :=
  match utxoFind s addr with
  | none => s
  | some l =>
      let l2 := removeFirstUTXO l txID outIndex
      let s2 := utxoAssign s addr l2
      if l2.length = 0 then utxoErase s2 addr else s2

/-- `b.addUTXO(address, utxo)`: append to the address's list (nil maps to []). -/
def addUTXO (s : UTXOSet) (addr : String) (u : UTXO) : UTXOSet :=
  utxoAssign s addr ((utxoFind s addr).getD [] ++ [u])

/-- The per-UTXO rebuild inside `copyUTXOSet`'s loop (fresh `UTXO` and
`TxOutput` records with the same field values). -/
def copyOneUTXO (u : UTXO) : UTXO :=
  { TxID := u.TxID, OutIndex := u.OutIndex,
    Output := { Value := u.Output.Value, Address := u.Output.Address,
                ScriptPub := u.Output.ScriptPub } }

/-- `b.copyUTXOSet()`: the deep copy taken as a rollback snapshot.  In the pure
model the rebuilt copy is (provably) equal to the original. -/
def copyUTXOSet (s : UTXOSet) : UTXOSet :=
  s.map (fun e => (e.1, e.2.map copyOneUTXO))

/-- `tx.CalculateFee(utxoSet)` (transaction.go): 0 for a coinbase, else the sum
of the referenced UTXO values minus the sum of the output values.  The Go
scan breaks only out of the inner per-address loop, so it adds the first match
of EVERY address holding the referenced pair (absent references contribute
nothing). -/
def Transaction.CalculateFee (tx : Transaction) (s : UTXOSet) : Rat :=
  if tx.IsCoinbase then 0
  else
    (tx.Inputs.foldl (fun acc i =>
        s.foldl (fun acc2 e =>
          match e.2.find? (fun u => u.TxID == i.TxID && u.OutIndex == i.OutIndex) with
          | some u => acc2 + u.Output.Value
          | none => acc2) acc) 0)
    - tx.Outputs.foldl (fun acc o => acc + o.Value) 0

/-! ## Blockchain state machine (blockchain.go) -/

/-- The node's ledger state.  The Ethereum-style `WorldState`/`EthTransactions`
fields and the `DB` handle are out of the specified core and are not modelled. -/
structure Blockchain where
  Chain : List Block
  PendingTransactions : List Transaction
  UTXOSet : UTXOSet
deriving DecidableEq

/-- Outcome of a Go call: normal return, error return, or runtime panic. -/
inductive ExecResult where
  | ok
  | err (msg : String)
  | panicked
deriving DecidableEq

/-- `b.LastBlock()`. -/
def Blockchain.LastBlock (b : Blockchain) : Option Block := b.Chain.getLast?

/-- `b.FindUTXO(address)`: the address's list, or [] when absent. -/
def Blockchain.FindUTXO (b : Blockchain) (addr : String) : List UTXO :=
  (utxoFind b.UTXOSet addr).getD []

/-- `b.GetBalance(address)`: sum of the owned UTXO values. -/
def Blockchain.GetBalance (b : Blockchain) (addr : String) : Rat :=
  (b.FindUTXO addr).foldl (fun acc u => acc + u.Output.Value) 0

/-- `isValidProof(block)`: the stored hash string has the difficulty prefix.
The hash is never recomputed. -/
def isValidProof (blk : Block) : Bool := goStartsWith blk.Hash powZeros

/-- `b.isValidNewBlock(block)`: proof-of-work, index = chain length, and
link-back to the last block when one exists. -/
def Blockchain.isValidNewBlock (b : Blockchain) (blk : Block) : Bool :=
  if ¬ isValidProof blk then false
  else if blk.Index ≠ (b.Chain.length : Int) then false
  else
    match b.LastBlock with
    | none => true
    | some lastBlock => blk.PreviousHash == lastBlock.Hash

/-- Sum of the referenced input values, scanning the UTXO set per input; fails
(`none`, Go error "UTXO not found") on the first absent reference. -/
def inputSumOf (s : UTXOSet) : List TxInput → Option Rat
  | [] => some 0
  | i :: rest =>
      match utxoLocate s i.TxID i.OutIndex with
      | none => none
      | some (_, u) => (inputSumOf s rest).map (fun acc => u.Output.Value + acc)

/-- Sum of output values. -/
def outputSumOf (outs : List TxOutput) : Rat := outs.foldl (fun acc o => acc + o.Value) 0

/-- Total fees of the non-first transactions, as the coinbase check computes
them (`for j := 1; ...` summing `CalculateFee` against the current UTXO set). -/
def totalFeesOf (s : UTXOSet) (txs : List Transaction) : Rat :=
  (txs.drop 1).foldl (fun acc tx => acc + tx.CalculateFee s) 0

/-- The indexed transaction loop of `validateTransactions` for a non-genesis
block.  `all` is the block's full transaction list (used by the fee sum).

The coinbase reward branch mirrors the Go code exactly: when
`len(tx.Outputs) != 1` the error message itself evaluates `tx.Outputs[0].Value`,
which panics (index out of range) when the outputs list is empty. -/
def validateTxLoop (s : UTXOSet) (all : List Transaction) : List Transaction → Nat → ExecResult
  | [], _ => .ok
  | tx :: rest, i =>
      if tx.IsCoinbase then
        if i ≠ 0 then .err "coinbase transaction must be the first transaction in block"
        else
          let expectedReward := MiningReward + totalFeesOf s all
          if tx.Outputs.length ≠ 1 then
            (if tx.Outputs.length = 0 then .panicked
             else .err "invalid coinbase transaction reward")
          else if (tx.Outputs.headD ⟨0, "", ""⟩).Value ≠ expectedReward then
            .err "invalid coinbase transaction reward"
          else validateTxLoop s all rest (i + 1)
      else
        if i = 0 then .err "first transaction must be coinbase transaction"
        else
          match inputSumOf s tx.Inputs with
          | none => .err "UTXO not found"
          | some inSum =>
              if inSum < outputSumOf tx.Outputs then .err "insufficient inputs"
              else validateTxLoop s all rest (i + 1)

/-- `b.validateTransactions(block)` against the given UTXO set.  Validation is
read-only: all transactions of one block are checked against the same set. -/
def validateTransactions (s : UTXOSet) (blk : Block) : ExecResult :=
  if blk.Index = 0 then
    if blk.Transactions.length ≠ 1 then .err "genesis block should have exactly one transaction"
    else
      let genesisTx := blk.Transactions.headD ⟨"", [], []⟩
      if ¬ genesisTx.IsCoinbase then .err "genesis block transaction must be coinbase"
      else if genesisTx.ID ≠ "genesis-coinbase-transaction" then .err "invalid genesis transaction ID"
      else .ok
  else
    if blk.Transactions.length = 0 then
      .err "non-genesis blocks must have at least one transaction (coinbase)"
    else validateTxLoop s blk.Transactions blk.Transactions 0

/-- Input-removal phase for one non-coinbase transaction: locate each spent
UTXO's owner and remove it; a reference that no longer matches anything is
silently skipped. -/
def removeInputs (s : UTXOSet) : List TxInput → UTXOSet
  | [] => s
  | i :: rest =>
      let s2 := match utxoLocate s i.TxID i.OutIndex with
        | some (owner, _) => removeUTXO s owner i.TxID i.OutIndex
        | none => s
      removeInputs s2 rest

/-- Output-insertion phase: add each output as a fresh UTXO, indexed in order. -/
def addOutputs (s : UTXOSet) (txID : String) : List TxOutput → Nat → UTXOSet
  | [], _ => s
  | o :: rest, i => addOutputs (addUTXO s o.Address ⟨txID, (i : Int), o⟩) txID rest (i + 1)

/-- `b.applyUTXOChanges(block)`.  The Go function always returns nil: its error
type is only plumbing, so the model returns the updated set directly.  The
genesis coinbase (a coinbase inside a block of index 0) has its outputs
skipped. -/
def applyUTXOChanges (s : UTXOSet) (blk : Block) : UTXOSet :=
  blk.Transactions.foldl (fun acc tx =>
    let acc2 := if ¬ tx.IsCoinbase then removeInputs acc tx.Inputs else acc
    if tx.IsCoinbase && blk.Index == 0 then acc2
    else addOutputs acc2 tx.ID tx.Outputs 0) s

/-- `b.SubmitBlock(block)`, returning the post-call state and the outcome.
On a returned error the state components carry what the Go method leaves
behind; on a panic the process dies (the paired state is the pre-call one,
never observed).  The `applyUTXOChanges` rollback branch of the source is dead
code because that function always returns nil. -/
def Blockchain.SubmitBlock (b : Blockchain) (blk : Block) : Blockchain × ExecResult :=
  if ¬ b.isValidNewBlock blk then (b, .err "invalid block submitted")
  else
    -- Go takes `utxoBackup := b.copyUTXOSet()` here; the snapshot is consumed
    -- only by the unreachable rollback branch, so the pure model elides it.
    match validateTransactions b.UTXOSet blk with
    | .err m => (b, .err ("transaction validation failed: " ++ m))
    | .panicked => (b, .panicked)
    | .ok =>
        ({ Chain := b.Chain ++ [blk],
           PendingTransactions := [],
           UTXOSet := applyUTXOChanges b.UTXOSet blk }, .ok)

/-- `b.IsLongerThan(other)`. -/
def Blockchain.IsLongerThan (b other : Blockchain) : Bool :=
  b.Chain.length > other.Chain.length

/-- Pairwise body of `IsValidChain`: checks proof-of-work, link-back and index
increment for each block from the SECOND onward (the loop starts at i = 1, so
the first block is never checked). -/
def validChainFrom : Block → List Block → Bool
  | _, [] => true
  | prev, cur :: rest =>
      isValidProof cur && cur.PreviousHash == prev.Hash &&
      cur.Index == prev.Index + 1 && validChainFrom cur rest

/-- `b.IsValidChain()`. -/
def Blockchain.IsValidChain (b : Blockchain) : Bool :=
  match b.Chain with
  | [] => true
  | first :: rest => validChainFrom first rest

/-- Result of replaying a peer chain from genesis against a fresh UTXO set. -/
inductive ReplayResult where
  | ok (s : UTXOSet)
  | err (msg : String)
  | panicked
deriving DecidableEq

/-- The replay loop of `ReplaceChain`: per block, validate against the UTXO set
built so far, then apply. -/
def replayChain (s : UTXOSet) : List Block → ReplayResult
  | [] => .ok s
  | blk :: rest =>
      match validateTransactions s blk with
      | .err m => .err m
      | .panicked => .panicked
      | .ok => replayChain (applyUTXOChanges s blk) rest

/-- `b.ReplaceChain(newChain)`.  NOTE the failure path during replay: the Go
code restores the UTXO set from the snapshot but sets the chain to a fresh
EMPTY slice — it does not restore the original chain.  The pending pool is
cleared only after a fully successful replay. -/
def Blockchain.ReplaceChain (b newChain : Blockchain) : Blockchain × ExecResult :=
  if ¬ newChain.IsValidChain then (b, .err "invalid chain")
  else if ¬ newChain.IsLongerThan b then (b, .err "new chain is not longer")
  else
    let utxoBackup := copyUTXOSet b.UTXOSet
    match replayChain [] newChain.Chain with
    | .ok s =>
        ({ Chain := newChain.Chain, PendingTransactions := [], UTXOSet := s }, .ok)
    | .err m =>
        ({ Chain := [], PendingTransactions := b.PendingTransactions, UTXOSet := utxoBackup },
         .err ("chain validation failed: " ++ m))
    | .panicked => (b, .panicked)

/-- The input-selection loop of `CreateTransaction`: before taking each UTXO
the loop first breaks if the running total already covers the requirement. -/
def selectInputs (utxos : List UTXO) (totalNeeded total : Rat)
    (acc : List TxInput) : List TxInput × Rat :=
  match utxos with
  | [] => (acc, total)
  | u :: rest =>
      if total ≥ totalNeeded then (acc, total)
      else selectInputs rest totalNeeded (total + u.Output.Value)
             (acc ++ [{ TxID := u.TxID, OutIndex := u.OutIndex, Signature := none, PubKey := none }])

/-- `b.CreateTransaction(from, to, amount, fee)`: greedy UTXO selection, a
payment output, a change output exactly when the selected total strictly
exceeds `amount + fee`, `SetID`, and appending to the pending pool; `none`
(and an untouched state) when the sender's funds cannot cover the need. -/
def Blockchain.CreateTransaction (b : Blockchain) (fromAddress toAddress : String)
    (amount fee : Rat) : Option Transaction × Blockchain :=
  let senderUTXOs := b.FindUTXO fromAddress
  let totalNeeded := amount + fee
  let sel := selectInputs senderUTXOs totalNeeded 0 []
  if sel.2 < totalNeeded then (none, b)
  else
    let outputs :=
      [({ Value := amount, Address := toAddress, ScriptPub := "" } : TxOutput)] ++
      (if sel.2 > totalNeeded then
        [({ Value := sel.2 - totalNeeded, Address := fromAddress, ScriptPub := "" } : TxOutput)]
       else [])
    let transaction := Transaction.SetID { ID := "", Inputs := sel.1, Outputs := outputs }
    (some transaction, { b with PendingTransactions := b.PendingTransactions ++ [transaction] })

/-! ## Genesis (transaction.go `NewGenesisTransaction`, blockchain.go genesis) -/

/-- `NewGenesisTransaction()`: the fixed sentinel coinbase. -/
def NewGenesisTransaction : Transaction :=
  { ID := "genesis-coinbase-transaction",
    Inputs := [{ TxID := "", OutIndex := -1,
                 Signature := some (utf8Bytes "Educational Blockchain 2025 - Genesis Block Created"),
                 PubKey := none }],
    Outputs := [{ Value := 50,
                  Address := "1GenesisBlockUnspendableAddressXXXXXXXXXXXXXX",
                  ScriptPub := "Genesis Block - These coins are unspendable by design" }] }

/-- The genesis block before mining: fixed timestamp (a string constant, not
the wall clock), zero previous-hash, zero-value hash field, nonce 0. -/
def genesisTemplate : Block :=
  { Index := 0, Timestamp := "2024-01-01T00:00:00Z",
    Transactions := [NewGenesisTransaction],
    PreviousHash := zeros64, Hash := "", Nonce := 0 }

/-- The proof-of-work loop `for { block.Hash = Hash(block); if prefix break;
block.Nonce++ }`, fuel-bounded (the Go loop is unbounded; `none` means the
given number of iterations did not find a nonce).  Note each iteration hashes
the block with the PREVIOUS iteration's hash still stored in the hash field,
exactly as the Go code does. -/
def mineLoop : Nat → Block → Option Block
  | 0, _ => none
  | fuel + 1, b =>
      if goStartsWith (HashFn b) powZeros then some { b with Hash := HashFn b }
      else mineLoop fuel { b with Hash := HashFn b, Nonce := b.Nonce + 1 }

/-- `createGenesisBlock()`.  The wall clock `now` is passed as an ambient
argument; the source never reads it here (the timestamp is a fixed literal),
which is what makes genesis deterministic across nodes and times. -/
def createGenesisBlock (now : String) (fuel : Nat) : Option Block :=
  let _ := now
  mineLoop fuel genesisTemplate

/-- `b.processGenesisBlock(genesisBlock)` (blockchain.go): adds EVERY output of
the genesis block's transactions to the UTXO set — including the sentinel
"unspendable" genesis output. -/
def processGenesisBlock (s : UTXOSet) (genesisBlock : Block) : UTXOSet :=
  genesisBlock.Transactions.foldl (fun acc tx => addOutputs acc tx.ID tx.Outputs 0) s

/-- `NewBlockchain(db)` with a nil database: fresh chain containing the mined
genesis block, with the UTXO set initialized by `processGenesisBlock`. -/
def NewBlockchain (now : String) (fuel : Nat) : Option Blockchain :=
  (createGenesisBlock now fuel).map (fun g =>
    { Chain := [g], PendingTransactions := [],
      UTXOSet := processGenesisBlock [] g })

/-! ## Merkle tree (merkle.go)

The source builds the tree with explicit child/parent pointers and generates a
proof by climbing parent links.  A pure embedding cannot hold cyclic parent
pointers, so the levels are kept as hash lists (bottom-up, exactly the
`currentLevel`/`nextLevel` construction) and the climb is re-expressed by
position: the node at position `idx` of a level is a left child iff `idx` is
even (children are paired in order), its parent sits at `idx / 2` of the next
level, and the duplicated last node of an odd level reuses the hash of the
node before it.  The spec's design notes (§9) describe exactly this
index-derived parent encoding as equivalent. -/

/-- One level-combining pass: hash adjacent pairs; an odd trailing node is
paired with a duplicate of itself. -/
def pairHashes : List Bytes → List Bytes
  | [] => []
  | [h] => [sha256Bytes (h ++ h)]
  | h1 :: h2 :: rest => sha256Bytes (h1 ++ h2) :: pairHashes rest

/-- The `for len(currentLevel) > 1` loop, fuel-bounded (fuel := leaf count is
always enough since each pass at least halves a level of length ≥ 2). -/
def buildLevels : Nat → List Bytes → List Bytes
  | 0, level => level
  | fuel + 1, level => if level.length ≤ 1 then level else buildLevels fuel (pairHashes level)

/-- Leaf hashes of the build set, in input order. -/
def leafHashes (data : List Bytes) : List Bytes := data.map sha256Bytes

/-- `mt.GetRootHash()` of the tree over `data` (meaningful for nonempty data). -/
def merkleRoot (data : List Bytes) : Bytes :=
  (buildLevels data.length (leafHashes data)).headD []

/-- `MerkleProof`. -/
structure MerkleProof where
  LeafIndex : Nat
  LeafHash : Bytes
  Siblings : List Bytes
  Path : List Bool
deriving DecidableEq

/-- The climb from leaf `idx` to the root, collecting sibling hashes and
direction bits (`true` = sibling on the right, i.e. current node is a left
child). -/
def proofClimb : Nat → List Bytes → Nat → List Bytes × List Bool
  | 0, _, _ => ([], [])
  | fuel + 1, level, idx =>
      if level.length ≤ 1 then ([], [])
      else
        if idx % 2 = 0 then
          ((if idx + 1 < level.length then level.getD (idx + 1) [] else level.getD idx []) ::
             (proofClimb fuel (pairHashes level) (idx / 2)).1,
           true :: (proofClimb fuel (pairHashes level) (idx / 2)).2)
        else
          (level.getD (idx - 1) [] :: (proofClimb fuel (pairHashes level) (idx / 2)).1,
           false :: (proofClimb fuel (pairHashes level) (idx / 2)).2)

/-- Linear scan for the first leaf whose hash equals the target
(`for i, leaf := range mt.Leaves`). -/
def findLeafIdx : List Bytes → Bytes → Option Nat
  | [], _ => none
  | h :: rest, target =>
      if h == target then some 0 else (findLeafIdx rest target).map (· + 1)

/-- `mt.GenerateProof(data)`: error on an empty tree or an absent leaf. -/
def GenerateProof (data : List Bytes) (d : Bytes) : Option MerkleProof :=
  if data.length = 0 then none
  else
    match findLeafIdx (leafHashes data) (sha256Bytes d) with
    | none => none
    | some i =>
        let climb := proofClimb data.length (leafHashes data) i
        some { LeafIndex := i, LeafHash := sha256Bytes d, Siblings := climb.1, Path := climb.2 }

/-- The verification fold: `h := SHA-256(h ‖ sib)` when the direction bit says
the sibling is on the right, else `SHA-256(sib ‖ h)`.  Go indexes `Path[i]`
while ranging over `Siblings`, so a proof with fewer path bits than siblings
panics (`none`). -/
def verifyFold : Bytes → List Bytes → List Bool → Option Bytes
  | h, [], _ => some h
  | h, sib :: sibs, dir :: dirs =>
      verifyFold (if dir then sha256Bytes (h ++ sib) else sha256Bytes (sib ++ h)) sibs dirs
  | _, _ :: _, [] => none

/-- `VerifyProofStandalone(data, proof, rootHash)`. -/
def VerifyProofStandalone (d : Bytes) (proof : MerkleProof) (rootHash : Bytes) : Option Bool :=
  if sha256Bytes d ≠ proof.LeafHash then some false
  else (verifyFold (sha256Bytes d) proof.Siblings proof.Path).map (fun h => h == rootHash)

/-! ## Auxiliary observers and spec-modelled predicates -/

/-- A selected input, as the `CreateTransaction` loop builds it from a UTXO. -/
def mkSelInput (u : UTXO) : TxInput :=
  { TxID := u.TxID, OutIndex := u.OutIndex, Signature := none, PubKey := none }

/-- Sum of the values of a UTXO list. -/
def sumUTXOValues (l : List UTXO) : Rat := l.foldr (fun u acc => u.Output.Value + acc) 0

/-- Total value held anywhere in a UTXO set (used to observe money creation). -/
def totalUTXOValue (s : UTXOSet) : Rat :=
  s.foldr (fun e acc => sumUTXOValues e.2 + acc) 0

/-- Whether any UTXO in the set references the given transaction id. -/
def utxoSetHasTxID (s : UTXOSet) (txID : String) : Bool :=
  s.any (fun e => e.2.any (fun u => u.TxID == txID))

/-- Boolean holds-on-the-value test for an optional result. -/
def optHolds (p : α → Bool) : Option α → Bool
  | none => true
  | some a => p a

/-- Modelled from the spec: claim C6's well-formedness — "every block satisfies
proof-of-work, links back to its predecessor's hash, and has monotonically
increasing index".  Unlike the code's `IsValidChain`, this checks proof-of-work
for the FIRST block too. -/
def specWellFormedChain (b : Blockchain) : Bool :=
  b.Chain.all isValidProof && b.IsValidChain

/-- The genesis sentinel address. -/
def genesisAddr : String := "1GenesisBlockUnspendableAddressXXXXXXXXXXXXXX"

/-- The fresh post-construction state as `NewBlockchain` builds it, with the
pre-mining genesis template standing in for the mined genesis block (mining
changes only the nonce and hash fields, which the UTXO initialization never
reads). -/
def freshGenesisState : Blockchain :=
  { Chain := [genesisTemplate], PendingTransactions := [],
    UTXOSet := processGenesisBlock [] genesisTemplate }

/-- The expected genesis-shaped fields: fixed timestamp, the sentinel coinbase,
index 0, all-zero previous hash, and a difficulty-satisfying hash. -/
def genesisShape (b : Block) : Bool :=
  b.Timestamp == "2024-01-01T00:00:00Z" && b.Transactions == [NewGenesisTransaction] &&
  b.Index == 0 && b.PreviousHash == zeros64 && isValidProof b

/-! ## Concrete instances used by counterexamples and witnesses -/

/-- The empty ledger state (no chain, no pending pool, no UTXOs). -/
def emptyBlockchain : Blockchain := { Chain := [], PendingTransactions := [], UTXOSet := [] }

/-- C1: a local node with one block, one pending transaction, one UTXO. -/
def blockL0 : Block :=
  { Index := 0, Timestamp := "t0", Transactions := [], PreviousHash := "",
    Hash := "00000000", Nonce := 0 }

def pendingTxC1 : Transaction := { ID := "pendingpending", Inputs := [], Outputs := [] }

def utxoAliceC1 : UTXO :=
  { TxID := "aaaaaaaa", OutIndex := 0, Output := { Value := 5, Address := "alice", ScriptPub := "" } }

def localC1 : Blockchain :=
  { Chain := [blockL0], PendingTransactions := [pendingTxC1],
    UTXOSet := [("alice", [utxoAliceC1])] }

/-- C1: a peer chain that passes `IsValidChain` and is longer, but whose second
block has no transactions, so the replay from genesis fails. -/
def peerGenC1 : Block :=
  { Index := 0, Timestamp := "tg", Transactions := [NewGenesisTransaction],
    PreviousHash := "", Hash := "gggggggg", Nonce := 0 }

def peerBadC1 : Block :=
  { Index := 1, Timestamp := "t1", Transactions := [], PreviousHash := "gggggggg",
    Hash := "0000bbbb", Nonce := 0 }

def peerC1 : Blockchain :=
  { Chain := [peerGenC1, peerBadC1], PendingTransactions := [], UTXOSet := [] }

/-- C2: the fresh post-genesis state (the genesis hash value is immaterial to
every check involved; `SubmitBlock` never recomputes hashes). -/
def genC2 : Block :=
  { Index := 0, Timestamp := "2024-01-01T00:00:00Z", Transactions := [NewGenesisTransaction],
    PreviousHash := zeros64, Hash := "0000feedfacecafe", Nonce := 7 }

def bcC2 : Blockchain :=
  { Chain := [genC2], PendingTransactions := [], UTXOSet := processGenesisBlock [] genC2 }

/-- C2: coinbase paying the reward 10 plus the 1.0 fee of `tx1C2`. -/
def cbC2 : Transaction :=
  { ID := "cbcbcbcb", Inputs := [{ TxID := "", OutIndex := -1, Signature := none, PubKey := none }],
    Outputs := [{ Value := 11, Address := "miner-address", ScriptPub := "" }] }

/-- C2: first spend of the genesis UTXO (value 50 → 49 to bob, fee 1). -/
def tx1C2 : Transaction :=
  { ID := "t1t1t1t1",
    Inputs := [{ TxID := "genesis-coinbase-transaction", OutIndex := 0, Signature := none, PubKey := none }],
    Outputs := [{ Value := 49, Address := "bob", ScriptPub := "" }] }

/-- C2: second spend of the SAME genesis UTXO (value 50 → 50 to carol, fee 0). -/
def tx2C2 : Transaction :=
  { ID := "t2t2t2t2",
    Inputs := [{ TxID := "genesis-coinbase-transaction", OutIndex := 0, Signature := none, PubKey := none }],
    Outputs := [{ Value := 50, Address := "carol", ScriptPub := "" }] }

/-- C2: the candidate block whose two non-coinbase transactions both spend the
same `(tx_id, output_index)`. -/
def dsBlockC2 : Block :=
  { Index := 1, Timestamp := "tsubmit", Transactions := [cbC2, tx1C2, tx2C2],
    PreviousHash := "0000feedfacecafe", Hash := "0000deadbeef", Nonce := 0 }

/-- C3: a genesis-shaped block whose stored hash is a fabricated 8-character
string with the required zero prefix. -/
def blockC3 : Block :=
  { Index := 0, Timestamp := "tt", Transactions := [NewGenesisTransaction],
    PreviousHash := "", Hash := "00001111", Nonce := 0 }

/-- C4: a block rejected by structural validation (no proof-of-work). -/
def badBlockC4 : Block :=
  { Index := 0, Timestamp := "x", Transactions := [], PreviousHash := "",
    Hash := "ffffffff", Nonce := 0 }

/-- C6: a local single-block chain. -/
def localC6 : Blockchain :=
  { Chain := [{ Index := 0, Timestamp := "l", Transactions := [], PreviousHash := "",
                Hash := "11111111", Nonce := 0 }],
    PendingTransactions := [], UTXOSet := [] }

/-- C6: peer chain whose FIRST block fails proof-of-work (hash `ffffgggg`);
`IsValidChain` never looks at it, so replacement succeeds anyway. -/
def peerGenC6 : Block :=
  { Index := 0, Timestamp := "g", Transactions := [NewGenesisTransaction],
    PreviousHash := "", Hash := "ffffgggg", Nonce := 0 }

def peerNextC6 : Block :=
  { Index := 1, Timestamp := "b",
    Transactions := [{ ID := "cb6cb6cb",
                       Inputs := [{ TxID := "", OutIndex := -1, Signature := none, PubKey := none }],
                       Outputs := [{ Value := 10, Address := "miner6", ScriptPub := "" }] }],
    PreviousHash := "ffffgggg", Hash := "0000cccc", Nonce := 0 }

def peerC6 : Blockchain :=
  { Chain := [peerGenC6, peerNextC6], PendingTransactions := [], UTXOSet := [] }

/-- C7: a sender with two UTXOs of values 3 and 4, in storage order. -/
def bcC7 : Blockchain :=
  { Chain := [], PendingTransactions := [],
    UTXOSet := [("alice",
      [{ TxID := "u1u1u1u1", OutIndex := 0, Output := { Value := 3, Address := "alice", ScriptPub := "" } },
       { TxID := "u2u2u2u2", OutIndex := 0, Output := { Value := 4, Address := "alice", ScriptPub := "" } }])] }

/-- C10: a chain whose next candidate block carries a coinbase with an EMPTY
outputs list. -/
def bcC10 : Blockchain :=
  { Chain := [{ Index := 0, Timestamp := "t0", Transactions := [], PreviousHash := "",
                Hash := "00000000", Nonce := 0 }],
    PendingTransactions := [], UTXOSet := [] }

def emptyOutputsCoinbase : Transaction :=
  { ID := "cbemptycb", Inputs := [{ TxID := "", OutIndex := -1, Signature := none, PubKey := none }],
    Outputs := [] }

def blockC10 : Block :=
  { Index := 1, Timestamp := "t", Transactions := [emptyOutputsCoinbase],
    PreviousHash := "00000000", Hash := "0000aaaa", Nonce := 0 }

/-! ## Theorems -/

/-- The per-UTXO rebuild is the identity (structure eta). -/
theorem copyOneUTXO_eq (u : UTXO) : copyOneUTXO u = u := rfl

/-- The per-address part of the deep copy rebuilds an equal list. -/
theorem copyUTXOList_eq (l : List UTXO) : l.map copyOneUTXO = l := by
  induction l with
  | nil => rfl
  | cons u rest ih => simp [copyOneUTXO_eq, ih]

/-- The deep-copy snapshot equals the original set in the pure model. -/
theorem copyUTXOSet_eq (s : UTXOSet) : copyUTXOSet s = s := by
  induction s with
  | nil => rfl
  | cons e rest ih =>
      show (e.1, e.2.map copyOneUTXO) :: copyUTXOSet rest = e :: rest
      rw [ih, copyUTXOList_eq]

/-- Claim C10: validation is not total on malformed coinbase outputs: for a
candidate non-genesis block whose first transaction is a coinbase with an empty
outputs list, the reward-mismatch branch of `validateTransactions` evaluates
`tx.Outputs[0].Value` while building the error message, so the call (and the
enclosing `SubmitBlock`) panics with an index-out-of-range instead of
returning an error. -/
theorem validateTransactions_panics_on_empty_coinbase_outputs :
    validateTransactions bcC10.UTXOSet blockC10 = .panicked ∧
    (bcC10.SubmitBlock blockC10).2 = .panicked := by
  constructor <;> with_unfolding_all decide

/-- Claim C2 (code bug): from the fresh post-genesis state, a candidate block
whose two non-coinbase transactions BOTH spend the genesis UTXO
`(genesis-coinbase-transaction, 0)` is ACCEPTED by `SubmitBlock` — validation
checks every transaction against the same pre-state UTXO set — and the
double spend mints money: the UTXO set total grows from 50 to 110 although
only 10 + 1 (reward + fee) should have been minted. -/
theorem submitBlock_accepts_intrablock_double_spend :
    tx1C2.Inputs = tx2C2.Inputs ∧
    (bcC2.SubmitBlock dsBlockC2).2 = .ok ∧
    totalUTXOValue bcC2.UTXOSet = 50 ∧
    totalUTXOValue (bcC2.SubmitBlock dsBlockC2).1.UTXOSet = 110 := by
  exact ⟨by decide, by with_unfolding_all decide,
         by with_unfolding_all decide, by with_unfolding_all decide⟩

/-- Claim C4: `SubmitBlock` atomicity — whenever the call returns an error, the
post-call state (chain, UTXO set and pending pool) is exactly the pre-call
state. -/
theorem submitBlock_atomic (b : Blockchain) (blk : Block) (m : String)
    (h : (b.SubmitBlock blk).2 = .err m) : (b.SubmitBlock blk).1 = b := by
  unfold Blockchain.SubmitBlock at h ⊢
  split at h
  next hvalid => rw [if_pos hvalid]
  next hvalid =>
    rw [if_neg hvalid]
    rcases hv : validateTransactions b.UTXOSet blk with _ | m2 | _ <;> rw [hv] at h
    all_goals first
      | rfl
      | exact ExecResult.noConfusion h

/-- Claim C4 witness: a concrete rejected submission (no proof-of-work), with
the state unchanged, via `submitBlock_atomic`. -/
theorem submitBlock_atomic_witness :
    (emptyBlockchain.SubmitBlock badBlockC4).2 = .err "invalid block submitted" ∧
    (emptyBlockchain.SubmitBlock badBlockC4).1 = emptyBlockchain :=
  ⟨by with_unfolding_all decide,
   submitBlock_atomic emptyBlockchain badBlockC4 "invalid block submitted"
     (by with_unfolding_all decide)⟩

set_option maxHeartbeats 1000000 in
/-- The proof-of-work loop changes only the nonce and hash fields, and a found
block's hash has the difficulty prefix. -/
theorem mineLoop_fields : ∀ (fuel : Nat) (b r : Block), mineLoop fuel b = some r →
    r.Transactions = b.Transactions ∧ r.Timestamp = b.Timestamp ∧
    r.Index = b.Index ∧ r.PreviousHash = b.PreviousHash ∧
    goStartsWith r.Hash powZeros = true
  | 0, b, r, h => by simp [mineLoop] at h
  | fuel + 1, b, r, h => by
      unfold mineLoop at h
      by_cases hpre : goStartsWith (HashFn b) powZeros = true
      · rw [if_pos hpre] at h
        have hr : { b with Hash := HashFn b } = r := Option.some.inj h
        subst hr
        exact ⟨rfl, rfl, rfl, rfl, hpre⟩
      · rw [if_neg hpre] at h
        have ih := mineLoop_fields fuel _ r h
        simpa using ih

/-- Claim C5 (code bug): the genesis coinbase output IS added to the UTXO set
on fresh construction.  `processGenesisBlock` registers the sentinel output, so
the fresh state's balance of the "unspendable" genesis address is 50 (not 0)
and the set contains a UTXO with transaction id
`genesis-coinbase-transaction`; moreover every state `NewBlockchain` can
construct carries exactly this UTXO set (mining touches only nonce and hash). -/
theorem newBlockchain_adds_genesis_utxo (now : String) (fuel : Nat) :
    freshGenesisState.GetBalance genesisAddr = 50 ∧
    utxoSetHasTxID freshGenesisState.UTXOSet "genesis-coinbase-transaction" = true ∧
    optHolds (fun bc => decide (bc.UTXOSet = freshGenesisState.UTXOSet))
      (NewBlockchain now fuel) = true := by
  refine ⟨by with_unfolding_all decide, by with_unfolding_all decide, ?_⟩
  unfold NewBlockchain createGenesisBlock
  rcases hm : mineLoop fuel genesisTemplate with _ | g
  · simp [optHolds]
  · have hp := (mineLoop_fields fuel genesisTemplate g hm).1
    have hset : processGenesisBlock [] g = processGenesisBlock [] genesisTemplate := by
      unfold processGenesisBlock
      rw [hp]
    simp [optHolds, hset, freshGenesisState]

/-- Claim C1 counterexample: a peer chain that passes the pre-checks but fails
replay (its second block has no transactions).  `ReplaceChain` returns the
replay error, yet the local chain is NOT restored — it is left empty. -/
theorem replaceChain_failure_clears_chain :
    (localC1.ReplaceChain peerC1).2 =
      .err "chain validation failed: non-genesis blocks must have at least one transaction (coinbase)" ∧
    (localC1.ReplaceChain peerC1).1.Chain = [] ∧
    (localC1.ReplaceChain peerC1).1.Chain ≠ localC1.Chain := by
  exact ⟨by with_unfolding_all decide, by with_unfolding_all decide,
         by with_unfolding_all decide⟩

/-- Claim C1 (amended): on any error return of `ReplaceChain`, the UTXO set and
the pending pool equal their pre-call values, and the chain is either untouched
(pre-check failures) or left empty (replay failures) — never some third value. -/
theorem replaceChain_error_restores_utxo_and_pending (b p : Blockchain) (m : String)
    (h : (b.ReplaceChain p).2 = .err m) :
    (b.ReplaceChain p).1.UTXOSet = b.UTXOSet ∧
    (b.ReplaceChain p).1.PendingTransactions = b.PendingTransactions ∧
    ((b.ReplaceChain p).1.Chain = b.Chain ∨ (b.ReplaceChain p).1.Chain = []) := by
  unfold Blockchain.ReplaceChain at h ⊢
  split at h
  next hc => rw [if_pos hc]; exact ⟨rfl, rfl, Or.inl rfl⟩
  next hc =>
    rw [if_neg hc]
    split at h
    next hc2 => rw [if_pos hc2]; exact ⟨rfl, rfl, Or.inl rfl⟩
    next hc2 =>
      rw [if_neg hc2]
      rcases hr : replayChain [] p.Chain with s | m2 | _ <;> rw [hr] at h
      all_goals first
        | exact ExecResult.noConfusion h
        | exact ⟨copyUTXOSet_eq b.UTXOSet, rfl, Or.inr rfl⟩

/-- Claim C1 witness: the amended restoration facts at the concrete failing
replacement. -/
theorem replaceChain_error_restores_witness :
    (localC1.ReplaceChain peerC1).1.UTXOSet = localC1.UTXOSet ∧
    (localC1.ReplaceChain peerC1).1.PendingTransactions = localC1.PendingTransactions ∧
    ((localC1.ReplaceChain peerC1).1.Chain = localC1.Chain ∨
     (localC1.ReplaceChain peerC1).1.Chain = []) :=
  replaceChain_error_restores_utxo_and_pending localC1 peerC1
    "chain validation failed: non-genesis blocks must have at least one transaction (coinbase)"
    (by with_unfolding_all decide)

/-- Claim C6 counterexample: a peer chain whose FIRST block fails proof-of-work
is still accepted by `ReplaceChain` (the code checks proof-of-work only from
the second block on), so the local chain mutates although the claim's
well-formedness (every block has proof-of-work) is false. -/
theorem replaceChain_ignores_first_block_pow :
    (localC6.ReplaceChain peerC6).2 = .ok ∧
    (localC6.ReplaceChain peerC6).1.Chain ≠ localC6.Chain ∧
    localC6.Chain.length < peerC6.Chain.length ∧
    specWellFormedChain peerC6 = false := by
  exact ⟨by with_unfolding_all decide, by with_unfolding_all decide,
         by with_unfolding_all decide, by with_unfolding_all decide⟩

/-- `ReplaceChain` on an invalid peer chain: early error, no mutation. -/
theorem replaceChain_not_valid (b p : Blockchain) (h : ¬ p.IsValidChain = true) :
    b.ReplaceChain p = (b, .err "invalid chain") := by
  unfold Blockchain.ReplaceChain
  rw [if_pos h]

/-- `ReplaceChain` on a not-strictly-longer peer chain: early error, no mutation. -/
theorem replaceChain_not_longer (b p : Blockchain) (hv : p.IsValidChain = true)
    (h : ¬ p.IsLongerThan b = true) :
    b.ReplaceChain p = (b, .err "new chain is not longer") := by
  unfold Blockchain.ReplaceChain
  rw [if_neg (not_not_intro hv), if_pos h]

/-- `ReplaceChain` with a successful replay: chain replaced, pool cleared. -/
theorem replaceChain_replay_ok (b p : Blockchain) (s : UTXOSet)
    (hv : p.IsValidChain = true) (hl : p.IsLongerThan b = true)
    (hr : replayChain [] p.Chain = .ok s) :
    b.ReplaceChain p =
      ({ Chain := p.Chain, PendingTransactions := [], UTXOSet := s }, .ok) := by
  unfold Blockchain.ReplaceChain
  rw [if_neg (not_not_intro hv), if_neg (not_not_intro hl), hr]

/-- `ReplaceChain` with a failing replay: UTXO set restored from the snapshot,
pending pool untouched, but the chain left EMPTY. -/
theorem replaceChain_replay_err (b p : Blockchain) (m : String)
    (hv : p.IsValidChain = true) (hl : p.IsLongerThan b = true)
    (hr : replayChain [] p.Chain = .err m) :
    b.ReplaceChain p =
      ({ Chain := [], PendingTransactions := b.PendingTransactions,
         UTXOSet := copyUTXOSet b.UTXOSet }, .err ("chain validation failed: " ++ m)) := by
  unfold Blockchain.ReplaceChain
  rw [if_neg (not_not_intro hv), if_neg (not_not_intro hl), hr]

/-- `ReplaceChain` with a panicking replay propagates the panic. -/
theorem replaceChain_replay_dies (b p : Blockchain)
    (hv : p.IsValidChain = true) (hl : p.IsLongerThan b = true)
    (hr : replayChain [] p.Chain = .panicked) :
    b.ReplaceChain p = (b, .panicked) := by
  unfold Blockchain.ReplaceChain
  rw [if_neg (not_not_intro hv), if_neg (not_not_intro hl), hr]

/-- Claim C6 (amended): for a node with a nonempty local chain, when the call
returns (no panic), `ReplaceChain` mutates the local chain iff the peer chain
is strictly longer AND passes the code's `IsValidChain` (which checks
proof-of-work, link-back and index increment only for blocks after the first);
an equal-length peer never replaces anything; and on success the local chain
equals the peer chain elementwise. -/
theorem replaceChain_longest_rule (b p : Blockchain)
    (hne : b.Chain ≠ [])
    (hnp : (b.ReplaceChain p).2 ≠ .panicked) :
    ((b.ReplaceChain p).1.Chain ≠ b.Chain ↔
      (b.Chain.length < p.Chain.length ∧ p.IsValidChain = true)) ∧
    (p.Chain.length = b.Chain.length →
      (b.ReplaceChain p).1 = b ∧ (b.ReplaceChain p).2 ≠ .ok) ∧
    ((b.ReplaceChain p).2 = .ok → (b.ReplaceChain p).1.Chain = p.Chain) := by
  by_cases hv : p.IsValidChain = true
  · by_cases hl : p.IsLongerThan b = true
    · have hlt : b.Chain.length < p.Chain.length := by
        simpa [Blockchain.IsLongerThan] using hl
      rcases hr : replayChain [] p.Chain with s | m2 | _
      · rw [replaceChain_replay_ok b p s hv hl hr]
        refine ⟨⟨fun _ => ⟨hlt, hv⟩, fun _ hEq => ?_⟩, fun heq => absurd heq (by omega), fun _ => rfl⟩
        have h2 : p.Chain = b.Chain := hEq
        rw [h2] at hlt
        exact lt_irrefl _ hlt
      · rw [replaceChain_replay_err b p m2 hv hl hr]
        refine ⟨⟨fun _ => ⟨hlt, hv⟩, fun _ hEq => ?_⟩, fun heq => absurd heq (by omega),
                fun hok => ExecResult.noConfusion hok⟩
        exact hne (Eq.symm hEq)
      · rw [replaceChain_replay_dies b p hv hl hr] at hnp
        exact absurd rfl hnp
    · rw [replaceChain_not_longer b p hv hl]
      have hnl : ¬ b.Chain.length < p.Chain.length := by
        simpa [Blockchain.IsLongerThan] using hl
      refine ⟨⟨fun hne2 => absurd rfl hne2, fun hRHS => absurd hRHS.1 hnl⟩,
              fun _ => ⟨rfl, fun hok => ExecResult.noConfusion hok⟩,
              fun hok => ExecResult.noConfusion hok⟩
  · rw [replaceChain_not_valid b p hv]
    refine ⟨⟨fun hne2 => absurd rfl hne2, fun hRHS => absurd hRHS.2 hv⟩,
            fun _ => ⟨rfl, fun hok => ExecResult.noConfusion hok⟩,
            fun hok => ExecResult.noConfusion hok⟩

/-- Claim C6 witness: the longest-chain facts at the concrete accepted
replacement (peer longer and code-valid, local chain mutated to the peer's). -/
theorem replaceChain_longest_rule_witness :
    ((localC6.ReplaceChain peerC6).1.Chain ≠ localC6.Chain ↔
      (localC6.Chain.length < peerC6.Chain.length ∧ peerC6.IsValidChain = true)) ∧
    (peerC6.Chain.length = localC6.Chain.length →
      (localC6.ReplaceChain peerC6).1 = localC6 ∧ (localC6.ReplaceChain peerC6).2 ≠ .ok) ∧
    ((localC6.ReplaceChain peerC6).2 = .ok →
      (localC6.ReplaceChain peerC6).1.Chain = peerC6.Chain) :=
  replaceChain_longest_rule localC6 peerC6 (by decide) (by with_unfolding_all decide)

/-- `bytesBE k` produces exactly `k` bytes. -/
theorem bytesBE_length : ∀ (k n : Nat), (bytesBE k n).length = k
  | 0, _ => rfl
  | k + 1, n => by simp [bytesBE, bytesBE_length k]

/-- A SHA-256 digest is 32 bytes, whatever the message. -/
theorem sha256Bytes_length (m : Bytes) : (sha256Bytes m).length = 32 := by
  simp [sha256Bytes, digestBytes, bytesBE_length]

/-- Hex encoding doubles the byte count. -/
theorem bytesToHexChars_length (l : Bytes) : (bytesToHexChars l).length = 2 * l.length := by
  induction l with
  | nil => rfl
  | cons b rest ih =>
      simp [bytesToHexChars, byteHexChars] at ih ⊢
      omega

/-- A hex-encoded SHA-256 string always has 64 characters. -/
theorem sha256Hex_length (s : String) : (sha256Hex s).length = 64 := by
  show (bytesToHexChars (sha256Bytes (utf8Bytes s))).length = 64
  rw [bytesToHexChars_length, sha256Bytes_length]

/-- Claim C3 counterexample: `SubmitBlock` accepts a block whose stored hash is
the fabricated 8-character string "00001111", which cannot be the hex SHA-256
of any serialization (the spec's canonical block hash always has 64
characters); the hash-binding half of the claim fails because `SubmitBlock`
never recomputes a hash. -/
theorem submitBlock_accepts_fabricated_hash :
    (emptyBlockchain.SubmitBlock blockC3).2 = .ok ∧
    blockC3.Hash ≠ specCanonicalBlockHash blockC3 := by
  constructor
  · with_unfolding_all decide
  · intro hEq
    have h1 : blockC3.Hash.length = 8 := by decide
    have h2 : (specCanonicalBlockHash blockC3).length = 64 := sha256Hex_length _
    rw [hEq] at h1
    rw [h1] at h2
    exact absurd h2 (by omega)

/-- A block accepted by `isValidNewBlock` satisfies the proof-of-work
prefix check. -/
theorem isValidNewBlock_pow (b : Blockchain) (blk : Block)
    (h : b.isValidNewBlock blk = true) : goStartsWith blk.Hash powZeros = true := by
  unfold Blockchain.isValidNewBlock at h
  by_cases hp : isValidProof blk = true
  · simpa [isValidProof] using hp
  · rw [if_pos hp] at h
    exact Bool.noConfusion h

/-- Claim C3 (amended): every block accepted by `SubmitBlock` has at least
`DIFFICULTY` leading hex zeros in its stored hash string.  (The claim's second
half — that the hash equals the SHA-256 of the block's serialization with the
hash field excluded — does not hold; see the counterexample.) -/
theorem submitBlock_pow_prefix (b : Blockchain) (blk : Block)
    (h : (b.SubmitBlock blk).2 = .ok) : goStartsWith blk.Hash powZeros = true := by
  unfold Blockchain.SubmitBlock at h
  split at h
  next hc => exact ExecResult.noConfusion h
  next hc => exact isValidNewBlock_pow b blk (not_not.mp hc)

/-- Claim C3 witness: the proof-of-work prefix fact at a concrete accepted
submission, via `submitBlock_pow_prefix`. -/
theorem submitBlock_pow_prefix_witness :
    (emptyBlockchain.SubmitBlock blockC3).2 = .ok ∧
    goStartsWith blockC3.Hash powZeros = true :=
  ⟨by with_unfolding_all decide,
   submitBlock_pow_prefix emptyBlockchain blockC3 (by with_unfolding_all decide)⟩

/-- Claim C9: genesis creation is deterministic — it never reads the ambient
wall clock, so two constructions at any two times agree exactly (same
timestamp, same sentinel coinbase, same nonce, hence same hash), and any block
it produces carries the fixed timestamp `2024-01-01T00:00:00Z`, the sentinel
coinbase, index 0, the 64-zero previous hash, and a difficulty-satisfying
hash. -/
theorem createGenesisBlock_deterministic (t1 t2 : String) (fuel : Nat) :
    createGenesisBlock t1 fuel = createGenesisBlock t2 fuel ∧
    optHolds genesisShape (createGenesisBlock t1 fuel) = true := by
  refine ⟨rfl, ?_⟩
  unfold createGenesisBlock
  rcases hm : mineLoop fuel genesisTemplate with _ | g
  · rfl
  · obtain ⟨ht, hts, hi, hph, hpow⟩ := mineLoop_fields fuel genesisTemplate g hm
    simp only [optHolds, genesisShape, isValidProof]
    rw [ht, hts, hi, hph, hpow]
    decide

/-- Claim C9 witness: two concrete constructions at different wall-clock
readings, via `createGenesisBlock_deterministic`. -/
theorem createGenesisBlock_deterministic_witness :
    createGenesisBlock "2025-06-01T12:00:00Z" 3 = createGenesisBlock "1999-12-31T23:59:59Z" 3 ∧
    optHolds genesisShape (createGenesisBlock "2025-06-01T12:00:00Z" 3) = true :=
  createGenesisBlock_deterministic "2025-06-01T12:00:00Z" "1999-12-31T23:59:59Z" 3

/-- `SetID` touches only the `ID` field. -/
theorem setID_fields (tx : Transaction) :
    (Transaction.SetID tx).Inputs = tx.Inputs ∧ (Transaction.SetID tx).Outputs = tx.Outputs :=
  ⟨rfl, rfl⟩

/-- Sums of nonnegative UTXO values are nonnegative. -/
theorem sumUTXOValues_nonneg (l : List UTXO) (h : ∀ u ∈ l, 0 ≤ u.Output.Value) :
    0 ≤ sumUTXOValues l := by
  induction l with
  | nil => simp [sumUTXOValues]
  | cons u rest ih =>
      have h1 := h u (List.mem_cons_self u rest)
      have h2 := ih (fun v hv => h v (List.mem_cons_of_mem _ hv))
      simp only [sumUTXOValues, List.foldr_cons] at h2 ⊢
      linarith

/-- A prefix sum of nonnegative UTXO values is bounded by the full sum. -/
theorem sumUTXOValues_take_le (l : List UTXO) (h : ∀ u ∈ l, 0 ≤ u.Output.Value) :
    ∀ j, sumUTXOValues (l.take j) ≤ sumUTXOValues l := by
  induction l with
  | nil => intro j; simp
  | cons u rest ih =>
      intro j
      cases j with
      | zero =>
          have h2 := sumUTXOValues_nonneg (u :: rest) h
          simpa [sumUTXOValues] using h2
      | succ j2 =>
          have h2 := ih (fun v hv => h v (List.mem_cons_of_mem _ hv)) j2
          simp only [List.take_succ_cons, sumUTXOValues, List.foldr_cons] at h2 ⊢
          linarith

/-- Characterization of the greedy selection loop: it returns the inputs built
from the shortest prefix of the UTXO list whose running total (on top of the
starting total) covers the requirement — or the whole list when nothing
covers it — together with that total. -/
theorem selectInputs_spec (needed : Rat) : ∀ (l : List UTXO) (t0 : Rat) (acc : List TxInput),
    ∃ k, k ≤ l.length ∧
      selectInputs l needed t0 acc =
        (acc ++ (l.take k).map mkSelInput, t0 + sumUTXOValues (l.take k)) ∧
      (∀ j, j < k → t0 + sumUTXOValues (l.take j) < needed) ∧
      (k < l.length → needed ≤ t0 + sumUTXOValues (l.take k))
  | [], t0, acc => by
      refine ⟨0, le_refl 0, ?_, fun j hj => absurd hj (by omega), fun hlt => absurd hlt (by simp)⟩
      simp [selectInputs, sumUTXOValues]
  | u :: rest, t0, acc => by
      by_cases hge : t0 ≥ needed
      · refine ⟨0, by omega, ?_, fun j hj => absurd hj (by omega), fun _ => by
          simpa [sumUTXOValues] using hge⟩
        simp [selectInputs, hge, sumUTXOValues]
      · obtain ⟨k2, hk2le, heq, hmin, hlast⟩ :=
          selectInputs_spec needed rest (t0 + u.Output.Value)
            (acc ++ [{ TxID := u.TxID, OutIndex := u.OutIndex, Signature := none, PubKey := none }])
        refine ⟨k2 + 1, by simpa using Nat.succ_le_succ hk2le, ?_, ?_, ?_⟩
        · calc selectInputs (u :: rest) needed t0 acc
              = selectInputs rest needed (t0 + u.Output.Value)
                  (acc ++ [{ TxID := u.TxID, OutIndex := u.OutIndex,
                             Signature := none, PubKey := none }]) := by
                simp [selectInputs, hge]
          _ = (acc ++ [{ TxID := u.TxID, OutIndex := u.OutIndex,
                         Signature := none, PubKey := none }] ++
                (rest.take k2).map mkSelInput,
               t0 + u.Output.Value + sumUTXOValues (rest.take k2)) := heq
          _ = (acc ++ ((u :: rest).take (k2 + 1)).map mkSelInput,
               t0 + sumUTXOValues ((u :: rest).take (k2 + 1))) := by
                simp only [List.take_succ_cons, List.map_cons, sumUTXOValues, List.foldr_cons,
                  Prod.mk.injEq]
                constructor
                · simp [mkSelInput]
                · ring
        · intro j hj
          cases j with
          | zero =>
              have := not_le.mp hge
              simpa [sumUTXOValues] using this
          | succ j2 =>
              have hj2 : j2 < k2 := by omega
              have h2 := hmin j2 hj2
              simp only [List.take_succ_cons, sumUTXOValues, List.foldr_cons] at h2 ⊢
              linarith
        · intro hlt
          have h2 := hlast (by simpa using Nat.lt_of_succ_lt_succ hlt)
          simp only [List.take_succ_cons, sumUTXOValues, List.foldr_cons] at h2 ⊢
          linarith

/-- Claim C7: `CreateTransaction` walks the sender's UTXOs in storage order
greedily (the selected inputs are the shortest prefix whose sum covers
`amount + fee`); with insufficient funds it returns `none` and leaves the whole
state (hence the pending pool) unchanged; otherwise it returns a transaction
paying `amount` to the recipient with a change output of the surplus back to
the sender exactly when the selected sum strictly exceeds `amount + fee`, and
appends that transaction to the pending pool. -/
theorem createTransaction_spec (b : Blockchain) (fromAddress toAddress : String)
    (amount fee : Rat)
    (hpos : ∀ u ∈ b.FindUTXO fromAddress, 0 ≤ u.Output.Value) :
    (sumUTXOValues (b.FindUTXO fromAddress) < amount + fee →
      b.CreateTransaction fromAddress toAddress amount fee = (none, b)) ∧
    (amount + fee ≤ sumUTXOValues (b.FindUTXO fromAddress) →
      ∃ tx k,
        b.CreateTransaction fromAddress toAddress amount fee =
          (some tx, { b with PendingTransactions := b.PendingTransactions ++ [tx] }) ∧
        tx.Inputs = ((b.FindUTXO fromAddress).take k).map mkSelInput ∧
        (∀ j, j < k → sumUTXOValues ((b.FindUTXO fromAddress).take j) < amount + fee) ∧
        amount + fee ≤ sumUTXOValues ((b.FindUTXO fromAddress).take k) ∧
        tx.Outputs =
          [{ Value := amount, Address := toAddress, ScriptPub := "" }] ++
          (if amount + fee < sumUTXOValues ((b.FindUTXO fromAddress).take k) then
            [{ Value := sumUTXOValues ((b.FindUTXO fromAddress).take k) - (amount + fee),
               Address := fromAddress, ScriptPub := "" }]
           else [])) := by
  obtain ⟨k, hkle, heq, hmin, hlast⟩ :=
    selectInputs_spec (amount + fee) (b.FindUTXO fromAddress) 0 []
  simp only [List.nil_append, zero_add] at heq hmin hlast
  have hcover : amount + fee ≤ sumUTXOValues (b.FindUTXO fromAddress) →
      amount + fee ≤ sumUTXOValues ((b.FindUTXO fromAddress).take k) := by
    intro hsum
    rcases Nat.lt_or_ge k (b.FindUTXO fromAddress).length with hklt | hkge
    · exact hlast hklt
    · have hk : k = (b.FindUTXO fromAddress).length := le_antisymm hkle hkge
      rw [hk, List.take_length]
      exact hsum
  constructor
  · intro hsum
    have hk : k = (b.FindUTXO fromAddress).length := by
      by_contra hne2
      have hklt : k < (b.FindUTXO fromAddress).length := lt_of_le_of_ne hkle hne2
      have h1 := hlast hklt
      have h2 := sumUTXOValues_take_le (b.FindUTXO fromAddress) hpos k
      linarith
    rw [hk, List.take_length] at heq
    simp only [Blockchain.CreateTransaction, heq]
    rw [if_pos hsum]
  · intro hsum
    have hcov := hcover hsum
    simp only [Blockchain.CreateTransaction, heq]
    rw [if_neg (not_lt.mpr hcov)]
    exact ⟨_, k, rfl, (setID_fields _).1, hmin, hcov, (setID_fields _).2⟩

/-- Claim C7 witness: a sender holding UTXOs of 3 and 4 sending 5 with fee 1 —
both UTXOs are selected greedily and a change output of 1 returns to the
sender, via `createTransaction_spec`. -/
theorem createTransaction_spec_witness :
    (∀ u ∈ bcC7.FindUTXO "alice", 0 ≤ u.Output.Value) ∧
    (5 + 1 : Rat) ≤ sumUTXOValues (bcC7.FindUTXO "alice") ∧
    (∃ tx k,
      bcC7.CreateTransaction "alice" "bob" 5 1 =
        (some tx, { bcC7 with PendingTransactions := bcC7.PendingTransactions ++ [tx] }) ∧
      tx.Inputs = ((bcC7.FindUTXO "alice").take k).map mkSelInput ∧
      (∀ j, j < k → sumUTXOValues ((bcC7.FindUTXO "alice").take j) < 5 + 1) ∧
      (5 + 1 : Rat) ≤ sumUTXOValues ((bcC7.FindUTXO "alice").take k) ∧
      tx.Outputs =
        [{ Value := 5, Address := "bob", ScriptPub := "" }] ++
        (if (5 + 1 : Rat) < sumUTXOValues ((bcC7.FindUTXO "alice").take k) then
          [{ Value := sumUTXOValues ((bcC7.FindUTXO "alice").take k) - (5 + 1),
             Address := "alice", ScriptPub := "" }]
         else [])) :=
  ⟨by with_unfolding_all decide, by with_unfolding_all decide,
   (createTransaction_spec bcC7 "alice" "bob" 5 1 (by with_unfolding_all decide)).2
     (by with_unfolding_all decide)⟩

/-- One combining pass produces one hash per (possibly duplicated) pair. -/
theorem pairHashes_length : ∀ l : List Bytes, (pairHashes l).length = (l.length + 1) / 2
  | [] => rfl
  | [h] => by simp [pairHashes]
  | h1 :: h2 :: rest => by
      simp only [pairHashes, List.length_cons, pairHashes_length rest]
      omega

/-- The parent hash at position `k` of a combined level is the hash of the
concatenation of children `2k` and `2k+1` (the child itself when `2k+1` is out
of range — the odd-level duplication). -/
theorem pairHashes_getD : ∀ (l : List Bytes) (k : Nat), 2 * k < l.length →
    (pairHashes l).getD k [] =
      sha256Bytes (l.getD (2 * k) [] ++
        (if 2 * k + 1 < l.length then l.getD (2 * k + 1) [] else l.getD (2 * k) []))
  | [], k, h => by simp at h
  | [h1], k, hk => by
      have hk0 : k = 0 := by simp at hk; omega
      subst hk0
      simp [pairHashes]
  | h1 :: h2 :: rest, 0, hk => by
      simp [pairHashes]
  | h1 :: h2 :: rest, k + 1, hk => by
      simp only [List.length_cons] at hk
      have hk2 : 2 * k < rest.length := by omega
      have ih := pairHashes_getD rest k hk2
      show (pairHashes rest).getD k [] = _
      rw [ih]
      have g1 : (h1 :: h2 :: rest).getD (2 * (k + 1)) [] = rest.getD (2 * k) [] := by
        have e1 : 2 * (k + 1) = 2 * k + 1 + 1 := by omega
        rw [e1, List.getD_cons_succ, List.getD_cons_succ]
      have g2 : (h1 :: h2 :: rest).getD (2 * (k + 1) + 1) [] = rest.getD (2 * k + 1) [] := by
        have e2 : 2 * (k + 1) + 1 = 2 * k + 1 + 1 + 1 := by omega
        rw [e2, List.getD_cons_succ, List.getD_cons_succ]
      rw [g1, g2]
      by_cases hc : 2 * k + 1 < rest.length
      · rw [if_pos hc, if_pos (by simp only [List.length_cons]; omega)]
      · rw [if_neg hc, if_neg (by simp only [List.length_cons]; omega)]

/-- Folding the collected siblings from any leaf reproduces some entry of the
final level (the root when the build finished). -/
theorem climbFold : ∀ (fuel : Nat) (level : List Bytes) (idx : Nat), idx < level.length →
    ∃ j, j < (buildLevels fuel level).length ∧
      verifyFold (level.getD idx []) (proofClimb fuel level idx).1 (proofClimb fuel level idx).2 =
        some ((buildLevels fuel level).getD j [])
  | 0, level, idx, hidx =>
      ⟨idx, by simpa [buildLevels] using hidx, by simp [proofClimb, verifyFold, buildLevels]⟩
  | fuel + 1, level, idx, hidx => by
      by_cases hlen : level.length ≤ 1
      · refine ⟨idx, ?_, ?_⟩
        · unfold buildLevels
          rw [if_pos hlen]
          exact hidx
        · unfold proofClimb buildLevels
          rw [if_pos hlen, if_pos hlen]
          simp [verifyFold]
      · have hidx2 : idx / 2 < (pairHashes level).length := by
          rw [pairHashes_length]
          omega
        obtain ⟨j, hj, hfold⟩ := climbFold fuel (pairHashes level) (idx / 2) hidx2
        have h2k : 2 * (idx / 2) < level.length := by omega
        refine ⟨j, ?_, ?_⟩
        · unfold buildLevels
          rw [if_neg hlen]
          exact hj
        · unfold proofClimb buildLevels
          rw [if_neg hlen, if_neg hlen]
          by_cases hpar : idx % 2 = 0
          · rw [if_pos hpar]
            show verifyFold
              (sha256Bytes (level.getD idx [] ++
                (if idx + 1 < level.length then level.getD (idx + 1) [] else level.getD idx [])))
              (proofClimb fuel (pairHashes level) (idx / 2)).1
              (proofClimb fuel (pairHashes level) (idx / 2)).2 = _
            have hstep : sha256Bytes (level.getD idx [] ++
                (if idx + 1 < level.length then level.getD (idx + 1) [] else level.getD idx [])) =
                (pairHashes level).getD (idx / 2) [] := by
              rw [pairHashes_getD level (idx / 2) h2k]
              have e : 2 * (idx / 2) = idx := by omega
              rw [e]
            rw [hstep]
            exact hfold
          · rw [if_neg hpar]
            show verifyFold
              (sha256Bytes (level.getD (idx - 1) [] ++ level.getD idx []))
              (proofClimb fuel (pairHashes level) (idx / 2)).1
              (proofClimb fuel (pairHashes level) (idx / 2)).2 = _
            have hstep : sha256Bytes (level.getD (idx - 1) [] ++ level.getD idx []) =
                (pairHashes level).getD (idx / 2) [] := by
              rw [pairHashes_getD level (idx / 2) h2k]
              have e1 : 2 * (idx / 2) = idx - 1 := by omega
              have e2 : 2 * (idx / 2) + 1 = idx := by omega
              rw [e2, e1, if_pos (by omega : idx < level.length)]
            rw [hstep]
            exact hfold

/-- With fuel at least the level size, the build loop reaches a single root. -/
theorem buildLevels_one : ∀ (fuel : Nat) (level : List Bytes),
    level ≠ [] → level.length ≤ fuel + 1 → (buildLevels fuel level).length = 1
  | 0, level, hne, hlen => by
      have h0 : level.length ≠ 0 := fun h => hne (List.length_eq_zero.mp h)
      show level.length = 1
      omega
  | fuel + 1, level, hne, hlen => by
      have h0 : level.length ≠ 0 := fun h => hne (List.length_eq_zero.mp h)
      by_cases hl : level.length ≤ 1
      · unfold buildLevels
        rw [if_pos hl]
        omega
      · unfold buildLevels
        rw [if_neg hl]
        apply buildLevels_one fuel
        · intro hnil
          have := pairHashes_length level
          rw [hnil] at this
          simp at this
          omega
        · rw [pairHashes_length]
          omega

/-- A found leaf index is in range and holds the target hash. -/
theorem findLeafIdx_spec : ∀ (l : List Bytes) (t : Bytes) (i : Nat),
    findLeafIdx l t = some i → i < l.length ∧ l.getD i [] = t
  | [], t, i, h => by simp [findLeafIdx] at h
  | x :: rest, t, i, h => by
      unfold findLeafIdx at h
      by_cases hx : x == t
      · rw [if_pos hx] at h
        have h0 : i = 0 := (Option.some.inj h).symm
        subst h0
        exact ⟨by simp, eq_of_beq hx⟩
      · rw [if_neg hx] at h
        rcases ho : findLeafIdx rest t with _ | i2
        · rw [ho] at h
          simp at h
        · rw [ho] at h
          have h1 : i2 + 1 = i := by simpa using h
          subst h1
          obtain ⟨hlt, hget⟩ := findLeafIdx_spec rest t i2 ho
          exact ⟨by simp only [List.length_cons]; omega, by rw [List.getD_cons_succ]; exact hget⟩

/-- A present hash is always found by the scan. -/
theorem findLeafIdx_mem : ∀ (l : List Bytes) (t : Bytes), t ∈ l →
    ∃ i, findLeafIdx l t = some i
  | [], t, h => absurd h (List.not_mem_nil t)
  | x :: rest, t, h => by
      unfold findLeafIdx
      by_cases hx : x == t
      · exact ⟨0, by rw [if_pos hx]⟩
      · have ht : t ∈ rest := by
          rcases List.mem_cons.mp h with h1 | h2
          · exact absurd (beq_iff_eq.mpr h1.symm) hx
          · exact h2
        obtain ⟨i, hi⟩ := findLeafIdx_mem rest t ht
        exact ⟨i + 1, by rw [if_neg hx, hi]; rfl⟩

/-- Claim C8: Merkle proof soundness (round trip) — for every nonempty build
set and every member `d`, `GenerateProof` succeeds and the standalone
verification of `d` with that proof against the tree's root hash returns
true. -/
theorem merkle_roundtrip (data : List Bytes) (d : Bytes)
    (hne : data ≠ []) (hmem : d ∈ data) :
    ∃ proof, GenerateProof data d = some proof ∧
      VerifyProofStandalone d proof (merkleRoot data) = some true := by
  have hlen0 : data.length ≠ 0 := fun h => hne (List.length_eq_zero.mp h)
  have hmem2 : sha256Bytes d ∈ leafHashes data := List.mem_map_of_mem _ hmem
  obtain ⟨i, hfind⟩ := findLeafIdx_mem (leafHashes data) (sha256Bytes d) hmem2
  obtain ⟨hilt, hget⟩ := findLeafIdx_spec (leafHashes data) (sha256Bytes d) i hfind
  obtain ⟨j, hj, hfold⟩ := climbFold data.length (leafHashes data) i hilt
  have hone : (buildLevels data.length (leafHashes data)).length = 1 :=
    buildLevels_one data.length (leafHashes data)
      (fun h => hne (List.map_eq_nil_iff.mp h))
      (by simp [leafHashes])
  have hj0 : j = 0 := by omega
  subst hj0
  have hroot : (buildLevels data.length (leafHashes data)).getD 0 [] = merkleRoot data := by
    unfold merkleRoot
    rcases hbl : buildLevels data.length (leafHashes data) with _ | ⟨a, t⟩
    · rw [hbl] at hone
      simp at hone
    · rfl
  refine ⟨{ LeafIndex := i, LeafHash := sha256Bytes d,
            Siblings := (proofClimb data.length (leafHashes data) i).1,
            Path := (proofClimb data.length (leafHashes data) i).2 }, ?_, ?_⟩
  · unfold GenerateProof
    rw [if_neg hlen0, hfind]
  · unfold VerifyProofStandalone
    rw [if_neg (not_ne_iff.mpr rfl)]
    show (verifyFold (sha256Bytes d) (proofClimb data.length (leafHashes data) i).1
      (proofClimb data.length (leafHashes data) i).2).map (fun h => h == merkleRoot data) =
        some true
    rw [← hget, hfold, hroot]
    simp

/-- Claim C8 witness: the round trip on the three-leaf build set
`[[0], [1], [2]]` and member `[2]` (the duplicated-odd-leaf case), via
`merkle_roundtrip`. -/
theorem merkle_roundtrip_witness :
    ([[0], [1], [2]] : List Bytes) ≠ [] ∧ ([2] : Bytes) ∈ ([[0], [1], [2]] : List Bytes) ∧
    ∃ proof, GenerateProof [[0], [1], [2]] [2] = some proof ∧
      VerifyProofStandalone [2] proof (merkleRoot [[0], [1], [2]]) = some true :=
  ⟨by decide, by decide, merkle_roundtrip [[0], [1], [2]] [2] (by decide) (by decide)⟩
